import Mathlib

/-!
Verification of the eBPF sidecar connection tracker.

Shallow embedding of the kernel probe layer
(src/coding/rust/ebpf-sidecar/sidecar-ebpf/src/main.rs), the shared data
model (sidecar-common/src/lib.rs), the aggregation utility
(sidecar/src/metrics.rs) and the metrics HTTP handler
(sidecar/src/main.rs, run_metrics_server).

Machine integers are modelled as Nat; additions the Rust code performs on
u64 / u32 counters are taken modulo 2 ^ 64 / 2 ^ 32, matching wrapping
semantics of release-mode arithmetic. The BPF hash map CONNECTIONS is
modelled as an association list with the insert / lookup / in-place update
/ delete semantics of an aya HashMap with max_entries = 10240 and flag
BPF_ANY (insert overwrites an existing key; inserting a fresh key fails
when the map is at capacity). Probe context reads (ctx.arg, ctx.read_at,
bpf_probe_read_kernel) are passed in as Except values: an event whose
kernel reads all succeed carries an ok value.
-/

def U64 : Nat := 2 ^ 64

def U32 : Nat := 2 ^ 32

/-- Capacity of the CONNECTIONS map (HashMap::with_max_entries(10240, ...)). -/
def CONNECTIONS_MAX_ENTRIES : Nat := 10240

/-- ConnKey from sidecar-common: the TCP 4-tuple identifying a connection.
Field values are u32 / u16, modelled as Nat. -/
structure ConnKey where
  src_ip : Nat
  dst_ip : Nat
  src_port : Nat
  dst_port : Nat
deriving DecidableEq, Repr

/-- ConnMetrics from sidecar-common: per-connection counters. All fields are
u64 except retransmits and the padding word, which are u32. -/
structure ConnMetrics where
  bytes_sent : Nat
  bytes_recv : Nat
  packets_sent : Nat
  packets_recv : Nat
  start_ns : Nat
  last_seen_ns : Nat
  retransmits : Nat
  _padding : Nat
deriving DecidableEq, Repr

/-- SidecarConfig from sidecar-common: the RuntimeConfig record userspace
writes into the single-slot CONFIG array. target_ports is the fixed
8-element u16 array. -/
structure SidecarConfig where
  target_pid : Nat
  target_cgroup : Nat
  target_ports : List Nat
  num_target_ports : Nat
  enable_http : Nat
  debug_mode : Nat
  _padding : Nat
deriving DecidableEq, Repr

/-- The CONNECTIONS map state: an association list of key / metrics pairs.
Operations below never create a duplicate key. -/
abbrev ConnTable := List (ConnKey × ConnMetrics)

/-- Point lookup (HashMap::get / get_ptr_mut): the metrics stored under a
key, if present. -/
def tableGet : ConnTable → ConnKey → Option ConnMetrics
  | [], _ => none
  | (k0, v) :: rest, k => if k0 = k then some v else tableGet rest k

/-- In-place update through the mutable pointer returned by get_ptr_mut:
rewrites the value stored under the key, leaves everything else alone. -/
def tableUpdate : ConnTable → ConnKey → (ConnMetrics → ConnMetrics) → ConnTable
  | [], _, _ => []
  | (k0, v) :: rest, k, f =>
    if k0 = k then (k0, f v) :: tableUpdate rest k f
    else (k0, v) :: tableUpdate rest k f

/-- HashMap::remove: deletes the entry under the key if present. -/
def tableRemove : ConnTable → ConnKey → ConnTable
  | [], _ => []
  | (k0, v) :: rest, k =>
    if k0 = k then tableRemove rest k else (k0, v) :: tableRemove rest k

/-- HashMap::insert with flags = 0 (BPF_ANY): overwrites the value when the
key exists; otherwise inserts a fresh entry, failing with -E2BIG when the
map already holds max_entries entries. -/
def tableInsert (t : ConnTable) (k : ConnKey) (v : ConnMetrics) :
    Except Int ConnTable :=
  match tableGet t k with
  | some _ => .ok (tableUpdate t k (fun _ => v))
  | none =>
    if t.length < CONNECTIONS_MAX_ENTRIES then .ok ((k, v) :: t)
    else .error (-7)

/-- should_trace from sidecar-ebpf: reads the CONFIG slot (none when
userspace never wrote it = trace everything); when target_pid is set,
only that pid is traced. No other config field is consulted. -/
def should_trace (cfg : Option SidecarConfig) (pid : Nat) : Bool :=
  match cfg with
  | none => true
  | some config =>
    if config.target_pid ≠ 0 then
      if pid ≠ config.target_pid then false else true
    else true

/-- The fresh ConnMetrics record try_trace_tcp_connect builds: all counters
zero, start_ns = last_seen_ns = now. -/
def freshMetrics (now : Nat) : ConnMetrics :=
  { bytes_sent := 0
    bytes_recv := 0
    packets_sent := 0
    packets_recv := 0
    start_ns := now
    last_seen_ns := now
    retransmits := 0
    _padding := 0 }

/-- try_trace_tcp_connect: filter, derive the key from the sock pointer
(sockArg bundles ctx.arg(0) and read_conn_key_from_sock), insert a fresh
record. now is bpf_ktime_get_ns(). -/
def try_trace_tcp_connect (cfg : Option SidecarConfig) (pid : Nat)
    (sockArg : Except Int ConnKey) (now : Nat) (t : ConnTable) :
    Except Int ConnTable :=
  if !(should_trace cfg pid) then .ok t
  else
    match sockArg with
    | .error e => .error e
    | .ok key => tableInsert t key (freshMetrics now)

/-- trace_tcp_connect: the kprobe wrapper, returning the probe status (0 on
ok, 1 on error) and the table (unchanged when the try body failed). -/
def trace_tcp_connect (cfg : Option SidecarConfig) (pid : Nat)
    (sockArg : Except Int ConnKey) (now : Nat) (t : ConnTable) :
    Nat × ConnTable :=
  match try_trace_tcp_connect cfg pid sockArg now t with
  | .ok tNew => (0, tNew)
  | .error _ => (1, t)

/-- try_trace_tcp_sendmsg: filter, re-derive the key and, when an entry
exists, add the size to bytes_sent (u64 wrap), bump packets_sent and touch
last_seen_ns. No entry is created when the key is absent. -/
def try_trace_tcp_sendmsg (cfg : Option SidecarConfig) (pid : Nat)
    (sockArg : Except Int ConnKey) (size : Nat) (now : Nat) (t : ConnTable) :
    Except Int ConnTable :=
  if !(should_trace cfg pid) then .ok t
  else
    match sockArg with
    | .error e => .error e
    | .ok key =>
      match tableGet t key with
      | some _ => .ok (tableUpdate t key (fun m =>
          { m with
            bytes_sent := (m.bytes_sent + size) % U64
            packets_sent := (m.packets_sent + 1) % U64
            last_seen_ns := now }))
      | none => .ok t

/-- trace_tcp_sendmsg: the kprobe wrapper. -/
def trace_tcp_sendmsg (cfg : Option SidecarConfig) (pid : Nat)
    (sockArg : Except Int ConnKey) (size : Nat) (now : Nat) (t : ConnTable) :
    Nat × ConnTable :=
  match try_trace_tcp_sendmsg cfg pid sockArg size now t with
  | .ok tNew => (0, tNew)
  | .error _ => (1, t)

/-- try_trace_tcp_recvmsg: filter, re-derive the key and, when an entry
exists, bump packets_recv and touch last_seen_ns. The byte count is not
available at entry, so bytes_recv is not touched. -/
def try_trace_tcp_recvmsg (cfg : Option SidecarConfig) (pid : Nat)
    (sockArg : Except Int ConnKey) (now : Nat) (t : ConnTable) :
    Except Int ConnTable :=
  if !(should_trace cfg pid) then .ok t
  else
    match sockArg with
    | .error e => .error e
    | .ok key =>
      match tableGet t key with
      | some _ => .ok (tableUpdate t key (fun m =>
          { m with
            packets_recv := (m.packets_recv + 1) % U64
            last_seen_ns := now }))
      | none => .ok t

/-- trace_tcp_recvmsg: the kprobe wrapper. -/
def trace_tcp_recvmsg (cfg : Option SidecarConfig) (pid : Nat)
    (sockArg : Except Int ConnKey) (now : Nat) (t : ConnTable) :
    Nat × ConnTable :=
  match try_trace_tcp_recvmsg cfg pid sockArg now t with
  | .ok tNew => (0, tNew)
  | .error _ => (1, t)

/-- try_trace_tcp_recvmsg_ret: reads the return value (ctx.ret); a
non-positive value is an error / no data and is ignored; a positive byte
count is also discarded because the connection identity is unavailable at
return. The table is never touched. -/
def try_trace_tcp_recvmsg_ret (retArg : Except Int Int) (t : ConnTable) :
    Except Int ConnTable :=
  match retArg with
  | .error e => .error e
  | .ok ret => if ret ≤ 0 then .ok t else .ok t

/-- trace_tcp_recvmsg_ret: the kretprobe wrapper. -/
def trace_tcp_recvmsg_ret (retArg : Except Int Int) (t : ConnTable) :
    Nat × ConnTable :=
  match try_trace_tcp_recvmsg_ret retArg t with
  | .ok tNew => (0, tNew)
  | .error _ => (1, t)

/-- try_trace_tcp_close: derives the key (no should_trace filter), logs the
final snapshot (no table effect) and removes the entry unconditionally. -/
def try_trace_tcp_close (sockArg : Except Int ConnKey) (t : ConnTable) :
    Except Int ConnTable :=
  match sockArg with
  | .error e => .error e
  | .ok key => .ok (tableRemove t key)

/-- trace_tcp_close: the kprobe wrapper. -/
def trace_tcp_close (sockArg : Except Int ConnKey) (t : ConnTable) :
    Nat × ConnTable :=
  match try_trace_tcp_close sockArg t with
  | .ok tNew => (0, tNew)
  | .error _ => (1, t)

/-- try_trace_tcp_retransmit: reads the 4-tuple from the tracepoint record
(readVals bundles the four ctx.read_at calls); when an entry exists under
that key, bumps retransmits (u32 wrap). No entry is created otherwise. -/
def try_trace_tcp_retransmit (readVals : Except Int (Nat × Nat × Nat × Nat))
    (t : ConnTable) : Except Int ConnTable :=
  match readVals with
  | .error e => .error e
  | .ok (saddr, daddr, sport, dport) =>
    let key : ConnKey :=
      { src_ip := saddr, dst_ip := daddr, src_port := sport, dst_port := dport }
    match tableGet t key with
    | some _ => .ok (tableUpdate t key (fun m =>
        { m with retransmits := (m.retransmits + 1) % U32 }))
    | none => .ok t

/-- trace_tcp_retransmit: the tracepoint wrapper. -/
def trace_tcp_retransmit (readVals : Except Int (Nat × Nat × Nat × Nat))
    (t : ConnTable) : Nat × ConnTable :=
  match try_trace_tcp_retransmit readVals t with
  | .ok tNew => (0, tNew)
  | .error _ => (1, t)

/-- A probe invocation whose kernel reads all succeed. pid is the upper
half of bpf_get_current_pid_tgid(); now is bpf_ktime_get_ns(). -/
inductive Event where
  | connect (pid : Nat) (key : ConnKey) (now : Nat)
  | send (pid : Nat) (key : ConnKey) (size : Nat) (now : Nat)
  | recv (pid : Nat) (key : ConnKey) (now : Nat)
  | recvRet (ret : Int)
  | close (key : ConnKey)
  | retransmit (saddr daddr sport dport : Nat)
deriving DecidableEq, Repr

/-- The table after one probe invocation (the wrapper keeps the table
unchanged on error, so only the table component matters here). -/
def step (cfg : Option SidecarConfig) (t : ConnTable) : Event → ConnTable
  | .connect pid key now => (trace_tcp_connect cfg pid (.ok key) now t).2
  | .send pid key size now => (trace_tcp_sendmsg cfg pid (.ok key) size now t).2
  | .recv pid key now => (trace_tcp_recvmsg cfg pid (.ok key) now t).2
  | .recvRet ret => (trace_tcp_recvmsg_ret (.ok ret) t).2
  | .close key => (trace_tcp_close (.ok key) t).2
  | .retransmit saddr daddr sport dport =>
    (trace_tcp_retransmit (.ok (saddr, daddr, sport, dport)) t).2

/-- The table after a sequence of probe invocations. -/
def runEvents (cfg : Option SidecarConfig) (es : List Event) (t : ConnTable) :
    ConnTable :=
  es.foldl (step cfg) t

/-! ### Basic lemmas about the table operations -/

theorem tableGet_update_self (t : ConnTable) (k : ConnKey)
    (f : ConnMetrics → ConnMetrics) :
    tableGet (tableUpdate t k f) k = (tableGet t k).map f := by
  induction t with
  | nil => rfl
  | cons p rest ih =>
    obtain ⟨k0, v⟩ := p
    by_cases h : k0 = k <;> simp [tableUpdate, tableGet, h, ih]

theorem tableGet_update_ne (t : ConnTable) (k k2 : ConnKey)
    (f : ConnMetrics → ConnMetrics) (hne : k2 ≠ k) :
    tableGet (tableUpdate t k f) k2 = tableGet t k2 := by
  induction t with
  | nil => rfl
  | cons p rest ih =>
    obtain ⟨k0, v⟩ := p
    by_cases h : k0 = k
    · subst h
      simp [tableUpdate, tableGet, (Ne.symm hne), ih]
    · simp [tableUpdate, tableGet, h, ih]

theorem tableGet_remove_self (t : ConnTable) (k : ConnKey) :
    tableGet (tableRemove t k) k = none := by
  induction t with
  | nil => rfl
  | cons p rest ih =>
    obtain ⟨k0, v⟩ := p
    by_cases h : k0 = k <;> simp [tableRemove, tableGet, h, ih]

theorem tableGet_remove_ne (t : ConnTable) (k k2 : ConnKey) (hne : k2 ≠ k) :
    tableGet (tableRemove t k) k2 = tableGet t k2 := by
  induction t with
  | nil => rfl
  | cons p rest ih =>
    obtain ⟨k0, v⟩ := p
    by_cases h : k0 = k
    · subst h
      simp [tableRemove, tableGet, (Ne.symm hne), ih]
    · simp [tableRemove, tableGet, h, ih]

theorem tableGet_mem (t : ConnTable) (k : ConnKey) (m : ConnMetrics)
    (h : tableGet t k = some m) : (k, m) ∈ t := by
  induction t with
  | nil => simp [tableGet] at h
  | cons p rest ih =>
    obtain ⟨k0, v⟩ := p
    simp only [tableGet] at h
    split at h
    · rename_i heq
      obtain rfl := Option.some.inj h
      subst heq
      exact List.mem_cons_self _ _
    · exact List.mem_cons_of_mem _ (ih h)

theorem mem_tableUpdate (t : ConnTable) (k : ConnKey)
    (f : ConnMetrics → ConnMetrics) (p : ConnKey × ConnMetrics)
    (h : p ∈ tableUpdate t k f) :
    p ∈ t ∨ ∃ q ∈ t, q.1 = k ∧ p = (k, f q.2) := by
  induction t with
  | nil => simp [tableUpdate] at h
  | cons q0 rest ih =>
    obtain ⟨k0, v⟩ := q0
    simp only [tableUpdate] at h
    split at h
    · rename_i heq
      subst heq
      rcases List.mem_cons.mp h with h | h
      · exact Or.inr ⟨(k0, v), List.mem_cons_self _ _, rfl, h⟩
      · rcases ih h with h2 | ⟨q, hq, hq1, hq2⟩
        · exact Or.inl (List.mem_cons_of_mem _ h2)
        · exact Or.inr ⟨q, List.mem_cons_of_mem _ hq, hq1, hq2⟩
    · rcases List.mem_cons.mp h with h | h
      · exact Or.inl (by simp [h])
      · rcases ih h with h2 | ⟨q, hq, hq1, hq2⟩
        · exact Or.inl (List.mem_cons_of_mem _ h2)
        · exact Or.inr ⟨q, List.mem_cons_of_mem _ hq, hq1, hq2⟩

theorem mem_tableRemove (t : ConnTable) (k : ConnKey)
    (p : ConnKey × ConnMetrics) (h : p ∈ tableRemove t k) : p ∈ t := by
  induction t with
  | nil => simp [tableRemove] at h
  | cons q0 rest ih =>
    obtain ⟨k0, v⟩ := q0
    simp only [tableRemove] at h
    split at h
    · exact List.mem_cons_of_mem _ (ih h)
    · rcases List.mem_cons.mp h with h | h
      · simp [h]
      · exact List.mem_cons_of_mem _ (ih h)

theorem tableInsert_ok (t : ConnTable) (k : ConnKey) (v : ConnMetrics)
    (h : t.length < CONNECTIONS_MAX_ENTRIES ∨ (tableGet t k).isSome) :
    ∃ tNew, tableInsert t k v = .ok tNew ∧ tableGet tNew k = some v ∧
      ∀ k2, k2 ≠ k → tableGet tNew k2 = tableGet t k2 := by
  cases hg : tableGet t k with
  | some m =>
    refine ⟨tableUpdate t k (fun _ => v), ?_, ?_, ?_⟩
    · unfold tableInsert
      rw [hg]
    · simp [tableGet_update_self, hg]
    · intro k2 hk2
      exact tableGet_update_ne t k k2 _ hk2
  | none =>
    rcases h with h | h
    · refine ⟨(k, v) :: t, ?_, ?_, ?_⟩
      · unfold tableInsert
        rw [hg]
        simp [h]
      · simp [tableGet]
      · intro k2 hk2
        simp [tableGet, Ne.symm hk2]
    · simp [hg] at h

theorem tableInsert_full (t : ConnTable) (k : ConnKey) (v : ConnMetrics)
    (hfull : ¬ t.length < CONNECTIONS_MAX_ENTRIES) (habs : tableGet t k = none) :
    tableInsert t k v = .error (-7) := by
  unfold tableInsert
  simp [habs, hfull]

theorem tableGet_eq_none (t : ConnTable) (k : ConnKey)
    (h : ∀ p ∈ t, p.1 ≠ k) : tableGet t k = none := by
  induction t with
  | nil => rfl
  | cons p rest ih =>
    obtain ⟨k0, v⟩ := p
    have hne : k0 ≠ k := h (k0, v) (List.mem_cons_self _ _)
    simpa [tableGet, hne] using ih (fun q hq => h q (List.mem_cons_of_mem _ hq))

/-! ### Lemmas about single probe invocations -/

theorem step_connect_ok (cfg : Option SidecarConfig) (pid : Nat) (k : ConnKey)
    (now : Nat) (t : ConnTable) (hT : should_trace cfg pid = true)
    (hr : t.length < CONNECTIONS_MAX_ENTRIES) :
    tableGet (step cfg t (.connect pid k now)) k = some (freshMetrics now) ∧
      ∀ k2, k2 ≠ k → tableGet (step cfg t (.connect pid k now)) k2 = tableGet t k2 := by
  obtain ⟨tNew, hins, hget, hother⟩ := tableInsert_ok t k (freshMetrics now) (Or.inl hr)
  have hstep : step cfg t (.connect pid k now) = tNew := by
    simp [step, trace_tcp_connect, try_trace_tcp_connect, hT, hins]
  rw [hstep]
  exact ⟨hget, hother⟩

/-! ### Concrete inputs used by witnesses and counterexamples -/

def keyA : ConnKey :=
  { src_ip := 167772161, dst_ip := 167772162, src_port := 5000, dst_port := 443 }

/-- A config filtering on pid 5. -/
def cfgPidFive : SidecarConfig :=
  { target_pid := 5, target_cgroup := 0, target_ports := [0, 0, 0, 0, 0, 0, 0, 0]
    num_target_ports := 0, enable_http := 0, debug_mode := 0, _padding := 0 }

/-- A config with the wildcard pid. -/
def cfgPidZero : SidecarConfig :=
  { target_pid := 0, target_cgroup := 0, target_ports := [0, 0, 0, 0, 0, 0, 0, 0]
    num_target_ports := 0, enable_http := 0, debug_mode := 0, _padding := 0 }

/-- A config that names one target port (80). -/
def cfgPorts : SidecarConfig :=
  { target_pid := 0, target_cgroup := 0, target_ports := [80, 0, 0, 0, 0, 0, 0, 0]
    num_target_ports := 1, enable_http := 0, debug_mode := 0, _padding := 0 }

/-- A connection whose destination port (9999) is not among cfgPorts. -/
def keyOffPort : ConnKey :=
  { src_ip := 167772161, dst_ip := 167772162, src_port := 55555, dst_port := 9999 }

/-- A table holding CONNECTIONS_MAX_ENTRIES distinct keys. -/
def fullTable : ConnTable :=
  (List.range CONNECTIONS_MAX_ENTRIES).map
    (fun i => ({ src_ip := i, dst_ip := 0, src_port := 0, dst_port := 0 }, freshMetrics 0))

/-- A key distinct from every key of fullTable. -/
def keyNew : ConnKey :=
  { src_ip := CONNECTIONS_MAX_ENTRIES, dst_ip := 0, src_port := 0, dst_port := 0 }

theorem runEvents_nil (cfg : Option SidecarConfig) (t : ConnTable) :
    runEvents cfg [] t = t := rfl

theorem runEvents_cons (cfg : Option SidecarConfig) (e : Event)
    (es : List Event) (t : ConnTable) :
    runEvents cfg (e :: es) t = runEvents cfg es (step cfg t e) := rfl

theorem runEvents_append (cfg : Option SidecarConfig) (es1 es2 : List Event)
    (t : ConnTable) :
    runEvents cfg (es1 ++ es2) t = runEvents cfg es2 (runEvents cfg es1 t) :=
  List.foldl_append _ _ _ _

/-- Effect of a run of send events on the entry they all hit: bytes_sent
accumulates the sizes and packets_sent the count, modulo u64 wrap. -/
theorem sends_effect (cfg : Option SidecarConfig) (pid : Nat) (k : ConnKey)
    (hT : should_trace cfg pid = true) :
    ∀ (sends : List (Nat × Nat)) (t : ConnTable) (m : ConnMetrics),
    tableGet t k = some m → m.bytes_sent < U64 → m.packets_sent < U64 →
    ∃ mNew,
      tableGet (runEvents cfg
        (sends.map (fun sn => Event.send pid k sn.1 sn.2)) t) k = some mNew
      ∧ mNew.bytes_sent = (m.bytes_sent + (sends.map Prod.fst).sum) % U64
      ∧ mNew.packets_sent = (m.packets_sent + sends.length) % U64 := by
  intro sends
  induction sends with
  | nil =>
    intro t m hget hb hp
    exact ⟨m, by simpa [runEvents] using hget,
      by simp [Nat.mod_eq_of_lt hb], by simp [Nat.mod_eq_of_lt hp]⟩
  | cons sn rest ih =>
    intro t m hget hb hp
    have hU : 0 < U64 := by norm_num [U64]
    have hstep : tableGet (step cfg t (.send pid k sn.1 sn.2)) k =
        some { m with
          bytes_sent := (m.bytes_sent + sn.1) % U64
          packets_sent := (m.packets_sent + 1) % U64
          last_seen_ns := sn.2 } := by
      simp [step, trace_tcp_sendmsg, try_trace_tcp_sendmsg, hT, hget,
        tableGet_update_self]
    obtain ⟨mNew, hgetNew, hbNew, hpNew⟩ :=
      ih (step cfg t (.send pid k sn.1 sn.2)) _ hstep
        (Nat.mod_lt _ hU) (Nat.mod_lt _ hU)
    refine ⟨mNew, by simpa [runEvents_cons] using hgetNew, ?_, ?_⟩
    · rw [hbNew]
      simp only [List.map_cons, List.sum_cons]
      rw [Nat.mod_add_mod, Nat.add_assoc]
    · rw [hpNew]
      simp only [List.length_cons]
      rw [Nat.mod_add_mod]
      ring_nf

/-- Claim C1: for a connect followed by sends on one 4-tuple (reads
succeeding, table not full, sums staying below the u64 range), the
snapshot just before close shows bytes_sent = sum of the sizes and
packets_sent = number of sends, and after close the key is absent. -/
theorem connect_send_close_lifecycle (cfg : Option SidecarConfig) (pid : Nat)
    (k : ConnKey) (now0 : Nat) (sends : List (Nat × Nat)) (t : ConnTable)
    (hT : should_trace cfg pid = true)
    (hr : t.length < CONNECTIONS_MAX_ENTRIES)
    (hsum : (sends.map Prod.fst).sum < U64)
    (hn : sends.length < U64) :
    (∃ m, tableGet (runEvents cfg
        (Event.connect pid k now0 ::
          sends.map (fun sn => Event.send pid k sn.1 sn.2)) t) k = some m
      ∧ m.bytes_sent = (sends.map Prod.fst).sum
      ∧ m.packets_sent = sends.length)
    ∧ tableGet (runEvents cfg
        ((Event.connect pid k now0 ::
          sends.map (fun sn => Event.send pid k sn.1 sn.2)) ++ [Event.close k])
        t) k = none := by
  have hconn := (step_connect_ok cfg pid k now0 t hT hr).1
  obtain ⟨mNew, hget, hb, hp⟩ :=
    sends_effect cfg pid k hT sends (step cfg t (.connect pid k now0))
      (freshMetrics now0) hconn (by norm_num [freshMetrics, U64])
      (by norm_num [freshMetrics, U64])
  have hb2 : mNew.bytes_sent = (sends.map Prod.fst).sum := by
    rw [hb]
    simp [freshMetrics, Nat.mod_eq_of_lt hsum]
  have hp2 : mNew.packets_sent = sends.length := by
    rw [hp]
    simp [freshMetrics, Nat.mod_eq_of_lt hn]
  constructor
  · exact ⟨mNew, by simpa [runEvents_cons] using hget, hb2, hp2⟩
  · rw [runEvents_append, runEvents_cons]
    simp [runEvents, step, trace_tcp_close, try_trace_tcp_close,
      tableGet_remove_self]

theorem connect_send_close_lifecycle_witness :
    (∃ m, tableGet (runEvents none
        (Event.connect 1 keyA 0 ::
          [((1000 : Nat), (1000000 : Nat)), (500, 2000000)].map
            (fun sn => Event.send 1 keyA sn.1 sn.2)) []) keyA = some m
      ∧ m.bytes_sent = ([((1000 : Nat), (1000000 : Nat)), (500, 2000000)].map Prod.fst).sum
      ∧ m.packets_sent = [((1000 : Nat), (1000000 : Nat)), (500, 2000000)].length)
    ∧ tableGet (runEvents none
        ((Event.connect 1 keyA 0 ::
          [((1000 : Nat), (1000000 : Nat)), (500, 2000000)].map
            (fun sn => Event.send 1 keyA sn.1 sn.2)) ++ [Event.close keyA])
        []) keyA = none :=
  connect_send_close_lifecycle none 1 keyA 0
    [(1000, 1000000), (500, 2000000)] [] rfl (by norm_num [CONNECTIONS_MAX_ENTRIES])
    (by norm_num [U64]) (by norm_num [U64])

/-! ### Claims -/

/-- Claim C2: with target_pid nonzero, a connect event from a different pid
creates no connection-table entry (the table is unchanged); with
target_pid = 0, a connect event from any pid (reads succeeding, table not
full) creates an entry. -/
theorem pid_filter_connect (c : SidecarConfig) (pid : Nat) (k : ConnKey)
    (now : Nat) (t : ConnTable) :
    (c.target_pid ≠ 0 → pid ≠ c.target_pid →
      step (some c) t (.connect pid k now) = t)
    ∧ (c.target_pid = 0 → t.length < CONNECTIONS_MAX_ENTRIES →
      tableGet (step (some c) t (.connect pid k now)) k = some (freshMetrics now)) := by
  constructor
  · intro h1 h2
    have hT : should_trace (some c) pid = false := by
      simp [should_trace, h1, h2]
    simp [step, trace_tcp_connect, try_trace_tcp_connect, hT]
  · intro h1 hr
    have hT : should_trace (some c) pid = true := by
      simp [should_trace, h1]
    exact (step_connect_ok (some c) pid k now t hT hr).1

theorem pid_filter_connect_witness :
    step (some cfgPidFive) [] (.connect 6 keyA 100) = []
    ∧ tableGet (step (some cfgPidZero) [] (.connect 6 keyA 100)) keyA
        = some (freshMetrics 100) :=
  ⟨(pid_filter_connect cfgPidFive 6 keyA 100 []).1 (by decide) (by decide),
   (pid_filter_connect cfgPidZero 6 keyA 100 []).2 rfl (by decide)⟩

/-- Claim C3 (refuted): the trace filter never consults the target-port
list. Changing target_ports / num_target_ports never changes the
should_trace decision, and a connect event to a port that is not in a
non-empty configured port list is traced anyway (an entry is created). -/
theorem ports_not_consulted :
    (∀ c : SidecarConfig, ∀ ps : List Nat, ∀ n pid : Nat,
      should_trace (some { c with target_ports := ps, num_target_ports := n }) pid
        = should_trace (some c) pid)
    ∧ should_trace (some cfgPorts) 1234 = true
    ∧ tableGet (step (some cfgPorts) [] (.connect 1234 keyOffPort 0)) keyOffPort
        = some (freshMetrics 0) := by
  refine ⟨fun c ps n pid => rfl, rfl, ?_⟩
  decide

/-- Claim C4: a connect event for a fresh key hitting a full table fails
cleanly: the probe returns status 1, the table is unchanged (so every
existing entry is intact) and the new key is absent afterwards. -/
theorem connect_full_table (cfg : Option SidecarConfig) (pid : Nat)
    (k : ConnKey) (now : Nat) (t : ConnTable)
    (hT : should_trace cfg pid = true)
    (hfull : t.length = CONNECTIONS_MAX_ENTRIES)
    (habs : tableGet t k = none) :
    trace_tcp_connect cfg pid (.ok k) now t = (1, t)
    ∧ tableGet (trace_tcp_connect cfg pid (.ok k) now t).2 k = none := by
  have herr : try_trace_tcp_connect cfg pid (.ok k) now t = .error (-7) := by
    simp [try_trace_tcp_connect, hT,
      tableInsert_full t k (freshMetrics now) (by simp [hfull]) habs]
  constructor
  · simp [trace_tcp_connect, herr]
  · simp [trace_tcp_connect, herr, habs]

theorem connect_full_table_witness :
    trace_tcp_connect none 1 (.ok keyNew) 0 fullTable = (1, fullTable)
    ∧ tableGet (trace_tcp_connect none 1 (.ok keyNew) 0 fullTable).2 keyNew = none := by
  have habs : tableGet fullTable keyNew = none := by
    apply tableGet_eq_none
    intro p hp
    simp only [fullTable, List.mem_map, List.mem_range] at hp
    obtain ⟨i, hi, rfl⟩ := hp
    simp only [keyNew, ne_eq, ConnKey.mk.injEq, not_and]
    intro h
    omega
  exact connect_full_table none 1 keyNew 0 fullTable rfl
    (by simp [fullTable]) habs

/-- Claim C6: a retransmit event whose 4-tuple has no table entry is a
no-op: the table is left exactly as it was (no entry created, no counter
changed). -/
theorem retransmit_untracked_noop (cfg : Option SidecarConfig) (t : ConnTable)
    (saddr daddr sport dport : Nat)
    (habs : tableGet t
      { src_ip := saddr, dst_ip := daddr, src_port := sport, dst_port := dport }
      = none) :
    step cfg t (.retransmit saddr daddr sport dport) = t := by
  simp [step, trace_tcp_retransmit, try_trace_tcp_retransmit, habs]

theorem retransmit_untracked_noop_witness :
    step none [(keyA, freshMetrics 7)] (.retransmit 1 2 3 4)
      = [(keyA, freshMetrics 7)] :=
  retransmit_untracked_noop none [(keyA, freshMetrics 7)] 1 2 3 4 (by decide)

/-- Claim C10: the close probe applies no trace filter: under any config a
close event (derivation succeeding) removes the entry for its key, while
connect, send and receive events from a filtered-out process leave the
table unchanged. -/
theorem close_skips_filter (cfg : Option SidecarConfig) (t : ConnTable)
    (k : ConnKey) (pid size now : Nat) :
    tableGet (step cfg t (.close k)) k = none
    ∧ (should_trace cfg pid = false →
        step cfg t (.connect pid k now) = t
        ∧ step cfg t (.send pid k size now) = t
        ∧ step cfg t (.recv pid k now) = t) := by
  constructor
  · simp [step, trace_tcp_close, try_trace_tcp_close, tableGet_remove_self]
  · intro hT
    refine ⟨?_, ?_, ?_⟩ <;>
      simp [step, trace_tcp_connect, try_trace_tcp_connect,
        trace_tcp_sendmsg, try_trace_tcp_sendmsg,
        trace_tcp_recvmsg, try_trace_tcp_recvmsg, hT]

theorem close_skips_filter_witness :
    tableGet (step (some cfgPidFive) [(keyA, freshMetrics 0)] (.close keyA)) keyA = none
    ∧ step (some cfgPidFive) [(keyA, freshMetrics 0)] (.connect 6 keyA 100)
        = [(keyA, freshMetrics 0)]
    ∧ step (some cfgPidFive) [(keyA, freshMetrics 0)] (.send 6 keyA 10 100)
        = [(keyA, freshMetrics 0)]
    ∧ step (some cfgPidFive) [(keyA, freshMetrics 0)] (.recv 6 keyA 100)
        = [(keyA, freshMetrics 0)] := by
  have h := close_skips_filter (some cfgPidFive) [(keyA, freshMetrics 0)] keyA 6 10 100
  have h2 := h.2 (by decide)
  exact ⟨h.1, h2.1, h2.2.1, h2.2.2⟩

/-! ### Step characterizations used by the invariant proofs -/

theorem step_recvRet_eq (cfg : Option SidecarConfig) (t : ConnTable) (ret : Int) :
    step cfg t (.recvRet ret) = t := by
  simp [step, trace_tcp_recvmsg_ret, try_trace_tcp_recvmsg_ret]

theorem step_close_eq (cfg : Option SidecarConfig) (t : ConnTable) (k : ConnKey) :
    step cfg t (.close k) = tableRemove t k := by
  simp [step, trace_tcp_close, try_trace_tcp_close]

theorem step_send_some (cfg : Option SidecarConfig) (pid : Nat) (k : ConnKey)
    (s now : Nat) (t : ConnTable) (hT : should_trace cfg pid = true)
    (h : (tableGet t k).isSome) :
    step cfg t (.send pid k s now) = tableUpdate t k (fun m =>
      { m with
        bytes_sent := (m.bytes_sent + s) % U64
        packets_sent := (m.packets_sent + 1) % U64
        last_seen_ns := now }) := by
  obtain ⟨m, hm⟩ := Option.isSome_iff_exists.mp h
  simp [step, trace_tcp_sendmsg, try_trace_tcp_sendmsg, hT, hm]

theorem step_send_none (cfg : Option SidecarConfig) (pid : Nat) (k : ConnKey)
    (s now : Nat) (t : ConnTable) (h : tableGet t k = none) :
    step cfg t (.send pid k s now) = t := by
  by_cases hT : should_trace cfg pid <;>
    simp [step, trace_tcp_sendmsg, try_trace_tcp_sendmsg, hT, h]

theorem step_recv_some (cfg : Option SidecarConfig) (pid : Nat) (k : ConnKey)
    (now : Nat) (t : ConnTable) (hT : should_trace cfg pid = true)
    (h : (tableGet t k).isSome) :
    step cfg t (.recv pid k now) = tableUpdate t k (fun m =>
      { m with
        packets_recv := (m.packets_recv + 1) % U64
        last_seen_ns := now }) := by
  obtain ⟨m, hm⟩ := Option.isSome_iff_exists.mp h
  simp [step, trace_tcp_recvmsg, try_trace_tcp_recvmsg, hT, hm]

theorem step_recv_none (cfg : Option SidecarConfig) (pid : Nat) (k : ConnKey)
    (now : Nat) (t : ConnTable) (h : tableGet t k = none) :
    step cfg t (.recv pid k now) = t := by
  by_cases hT : should_trace cfg pid <;>
    simp [step, trace_tcp_recvmsg, try_trace_tcp_recvmsg, hT, h]

theorem step_retransmit_some (cfg : Option SidecarConfig)
    (saddr daddr sport dport : Nat) (t : ConnTable)
    (h : (tableGet t
      { src_ip := saddr, dst_ip := daddr, src_port := sport, dst_port := dport }).isSome) :
    step cfg t (.retransmit saddr daddr sport dport) =
      tableUpdate t
        { src_ip := saddr, dst_ip := daddr, src_port := sport, dst_port := dport }
        (fun m => { m with retransmits := (m.retransmits + 1) % U32 }) := by
  obtain ⟨m, hm⟩ := Option.isSome_iff_exists.mp h
  simp [step, trace_tcp_retransmit, try_trace_tcp_retransmit, hm]

theorem step_retransmit_none (cfg : Option SidecarConfig)
    (saddr daddr sport dport : Nat) (t : ConnTable)
    (h : tableGet t
      { src_ip := saddr, dst_ip := daddr, src_port := sport, dst_port := dport }
      = none) :
    step cfg t (.retransmit saddr daddr sport dport) = t := by
  simp [step, trace_tcp_retransmit, try_trace_tcp_retransmit, h]

theorem step_filtered (cfg : Option SidecarConfig) (pid : Nat) (k : ConnKey)
    (s now : Nat) (t : ConnTable) (hT : should_trace cfg pid = false) :
    step cfg t (.connect pid k now) = t
    ∧ step cfg t (.send pid k s now) = t
    ∧ step cfg t (.recv pid k now) = t := by
  refine ⟨?_, ?_, ?_⟩ <;>
    simp [step, trace_tcp_connect, try_trace_tcp_connect,
      trace_tcp_sendmsg, try_trace_tcp_sendmsg,
      trace_tcp_recvmsg, try_trace_tcp_recvmsg, hT]

theorem step_connect_present (cfg : Option SidecarConfig) (pid : Nat)
    (k : ConnKey) (now : Nat) (t : ConnTable)
    (hT : should_trace cfg pid = true) (h : (tableGet t k).isSome) :
    step cfg t (.connect pid k now) =
      tableUpdate t k (fun _ => freshMetrics now) := by
  obtain ⟨m, hm⟩ := Option.isSome_iff_exists.mp h
  simp [step, trace_tcp_connect, try_trace_tcp_connect, hT, tableInsert, hm]

theorem step_connect_absent_room (cfg : Option SidecarConfig) (pid : Nat)
    (k : ConnKey) (now : Nat) (t : ConnTable)
    (hT : should_trace cfg pid = true) (h : tableGet t k = none)
    (hr : t.length < CONNECTIONS_MAX_ENTRIES) :
    step cfg t (.connect pid k now) = (k, freshMetrics now) :: t := by
  simp [step, trace_tcp_connect, try_trace_tcp_connect, hT, tableInsert, h, hr]

theorem step_connect_absent_full (cfg : Option SidecarConfig) (pid : Nat)
    (k : ConnKey) (now : Nat) (t : ConnTable)
    (h : tableGet t k = none) (hr : ¬ t.length < CONNECTIONS_MAX_ENTRIES) :
    step cfg t (.connect pid k now) = t := by
  by_cases hT : should_trace cfg pid <;>
    simp [step, trace_tcp_connect, try_trace_tcp_connect, hT, tableInsert, h, hr]

/-! ### Claim C5: timestamp and counter invariants -/

/-- The spec invariant on the table: last_seen_ns is at least start_ns for
every entry. -/
abbrev TimeInv (t : ConnTable) : Prop :=
  ∀ p ∈ t, p.2.start_ns ≤ p.2.last_seen_ns

/-- Pointwise order on the five counter fields of ConnMetrics. -/
abbrev counterLE (m1 m2 : ConnMetrics) : Prop :=
  m1.bytes_sent ≤ m2.bytes_sent ∧ m1.bytes_recv ≤ m2.bytes_recv
  ∧ m1.packets_sent ≤ m2.packets_sent ∧ m1.packets_recv ≤ m2.packets_recv
  ∧ m1.retransmits ≤ m2.retransmits

theorem counterLE_refl (m : ConnMetrics) : counterLE m m :=
  ⟨le_refl _, le_refl _, le_refl _, le_refl _, le_refl _⟩

/-- Size argument carried by a send event (0 for every other event). -/
def eventSize : Event → Nat
  | .send _ _ s _ => s
  | _ => 0

/-- Clock value an event reads from bpf_ktime_get_ns, when it reads one. -/
def eventTime : Event → Option Nat
  | .connect _ _ n => some n
  | .send _ _ _ n => some n
  | .recv _ _ n => some n
  | _ => none

/-- Claim C5: one probe invocation preserves last_seen_ns >= start_ns for
every entry, and never decreases any counter of an entry that stays alive
(a connect on the same key starts a new entry, ending its life), given the
monotone kernel clock and counters away from their wrap point. -/
theorem metrics_invariants (cfg : Option SidecarConfig) (t : ConnTable)
    (e : Event)
    (hInv : TimeInv t)
    (hClock : ∀ n, eventTime e = some n → ∀ p ∈ t, p.2.last_seen_ns ≤ n)
    (hOv : ∀ p ∈ t, p.2.bytes_sent + eventSize e < U64
      ∧ p.2.packets_sent + 1 < U64 ∧ p.2.packets_recv + 1 < U64
      ∧ p.2.retransmits + 1 < U32) :
    TimeInv (step cfg t e)
    ∧ ∀ k m mNew, (∀ pid n, e ≠ .connect pid k n) →
        tableGet t k = some m → tableGet (step cfg t e) k = some mNew →
        counterLE m mNew := by
  cases e with
  | connect pid k0 now =>
    cases hT : should_trace cfg pid with
    | false =>
      rw [(step_filtered cfg pid k0 0 now t hT).1]
      refine ⟨hInv, fun k m mNew _ hget hgetNew => ?_⟩
      rw [hget] at hgetNew
      obtain rfl := Option.some.inj hgetNew
      exact counterLE_refl m
    | true =>
      have hkne : ∀ (k : ConnKey), (∀ (pid2 n : Nat),
          (Event.connect pid k0 now) ≠ .connect pid2 k n) → k ≠ k0 := by
        intro k hne hk
        exact hne pid now (by rw [hk])
      cases hp : tableGet t k0 with
      | some m0 =>
        rw [step_connect_present cfg pid k0 now t hT (by simp [hp])]
        constructor
        · intro p hpmem
          rcases mem_tableUpdate t k0 _ p hpmem with h | ⟨q, hq, hq1, rfl⟩
          · exact hInv p h
          · simp [freshMetrics]
        · intro k m mNew hne hget hgetNew
          rw [tableGet_update_ne t k0 k _ (hkne k hne), hget] at hgetNew
          obtain rfl := Option.some.inj hgetNew
          exact counterLE_refl m
      | none =>
        by_cases hr : t.length < CONNECTIONS_MAX_ENTRIES
        · rw [step_connect_absent_room cfg pid k0 now t hT hp hr]
          constructor
          · intro p hpmem
            rcases List.mem_cons.mp hpmem with h | h
            · subst h
              simp [freshMetrics]
            · exact hInv p h
          · intro k m mNew hne hget hgetNew
            rw [show tableGet ((k0, freshMetrics now) :: t) k = tableGet t k from
              by simp [tableGet, Ne.symm (hkne k hne)], hget] at hgetNew
            obtain rfl := Option.some.inj hgetNew
            exact counterLE_refl m
        · rw [step_connect_absent_full cfg pid k0 now t hp hr]
          refine ⟨hInv, fun k m mNew _ hget hgetNew => ?_⟩
          rw [hget] at hgetNew
          obtain rfl := Option.some.inj hgetNew
          exact counterLE_refl m
  | send pid k0 s now =>
    cases hT : should_trace cfg pid with
    | false =>
      rw [(step_filtered cfg pid k0 s now t hT).2.1]
      refine ⟨hInv, fun k m mNew _ hget hgetNew => ?_⟩
      rw [hget] at hgetNew
      obtain rfl := Option.some.inj hgetNew
      exact counterLE_refl m
    | true =>
      cases hp : tableGet t k0 with
      | none =>
        rw [step_send_none cfg pid k0 s now t hp]
        refine ⟨hInv, fun k m mNew _ hget hgetNew => ?_⟩
        rw [hget] at hgetNew
        obtain rfl := Option.some.inj hgetNew
        exact counterLE_refl m
      | some m0 =>
        rw [step_send_some cfg pid k0 s now t hT (by simp [hp])]
        constructor
        · intro p hpmem
          rcases mem_tableUpdate t k0 _ p hpmem with h | ⟨q, hq, hq1, rfl⟩
          · exact hInv p h
          · have h1 := hInv q hq
            have h2 := hClock now rfl q hq
            simpa using le_trans h1 h2
        · intro k m mNew hne hget hgetNew
          by_cases hkk0 : k = k0
          · subst hkk0
            rw [tableGet_update_self, hget] at hgetNew
            simp only [Option.map_some'] at hgetNew
            obtain rfl := Option.some.inj hgetNew
            obtain ⟨hb, hps, _, _⟩ := hOv (k, m) (tableGet_mem t k m hget)
            simp only [eventSize] at hb
            refine ⟨?_, le_refl _, ?_, le_refl _, le_refl _⟩
            · simp [Nat.mod_eq_of_lt hb]
            · simp [Nat.mod_eq_of_lt hps]
          · rw [tableGet_update_ne t k0 k _ hkk0, hget] at hgetNew
            obtain rfl := Option.some.inj hgetNew
            exact counterLE_refl m
  | recv pid k0 now =>
    cases hT : should_trace cfg pid with
    | false =>
      rw [(step_filtered cfg pid k0 0 now t hT).2.2]
      refine ⟨hInv, fun k m mNew _ hget hgetNew => ?_⟩
      rw [hget] at hgetNew
      obtain rfl := Option.some.inj hgetNew
      exact counterLE_refl m
    | true =>
      cases hp : tableGet t k0 with
      | none =>
        rw [step_recv_none cfg pid k0 now t hp]
        refine ⟨hInv, fun k m mNew _ hget hgetNew => ?_⟩
        rw [hget] at hgetNew
        obtain rfl := Option.some.inj hgetNew
        exact counterLE_refl m
      | some m0 =>
        rw [step_recv_some cfg pid k0 now t hT (by simp [hp])]
        constructor
        · intro p hpmem
          rcases mem_tableUpdate t k0 _ p hpmem with h | ⟨q, hq, hq1, rfl⟩
          · exact hInv p h
          · have h1 := hInv q hq
            have h2 := hClock now rfl q hq
            simpa using le_trans h1 h2
        · intro k m mNew hne hget hgetNew
          by_cases hkk0 : k = k0
          · subst hkk0
            rw [tableGet_update_self, hget] at hgetNew
            simp only [Option.map_some'] at hgetNew
            obtain rfl := Option.some.inj hgetNew
            obtain ⟨_, _, hpr, _⟩ := hOv (k, m) (tableGet_mem t k m hget)
            refine ⟨le_refl _, le_refl _, le_refl _, ?_, le_refl _⟩
            simp [Nat.mod_eq_of_lt hpr]
          · rw [tableGet_update_ne t k0 k _ hkk0, hget] at hgetNew
            obtain rfl := Option.some.inj hgetNew
            exact counterLE_refl m
  | recvRet ret =>
    rw [step_recvRet_eq]
    refine ⟨hInv, fun k m mNew _ hget hgetNew => ?_⟩
    rw [hget] at hgetNew
    obtain rfl := Option.some.inj hgetNew
    exact counterLE_refl m
  | close k0 =>
    rw [step_close_eq]
    constructor
    · intro p hp
      exact hInv p (mem_tableRemove t k0 p hp)
    · intro k m mNew hne hget hgetNew
      by_cases hkk0 : k = k0
      · subst hkk0
        rw [tableGet_remove_self] at hgetNew
        exact absurd hgetNew (by simp)
      · rw [tableGet_remove_ne t k0 k hkk0, hget] at hgetNew
        obtain rfl := Option.some.inj hgetNew
        exact counterLE_refl m
  | retransmit saddr daddr sport dport =>
    cases hp : tableGet t
        { src_ip := saddr, dst_ip := daddr, src_port := sport, dst_port := dport } with
    | none =>
      rw [step_retransmit_none cfg saddr daddr sport dport t hp]
      refine ⟨hInv, fun k m mNew _ hget hgetNew => ?_⟩
      rw [hget] at hgetNew
      obtain rfl := Option.some.inj hgetNew
      exact counterLE_refl m
    | some m0 =>
      rw [step_retransmit_some cfg saddr daddr sport dport t (by simp [hp])]
      constructor
      · intro p hpmem
        rcases mem_tableUpdate t _ _ p hpmem with h | ⟨q, hq, hq1, rfl⟩
        · exact hInv p h
        · simpa using hInv q hq
      · intro k m mNew hne hget hgetNew
        by_cases hkk : k =
            { src_ip := saddr, dst_ip := daddr, src_port := sport, dst_port := dport }
        · rw [hkk] at hget hgetNew
          rw [tableGet_update_self, hget] at hgetNew
          simp only [Option.map_some'] at hgetNew
          obtain rfl := Option.some.inj hgetNew
          obtain ⟨_, _, _, hrt⟩ := hOv (_, m) (tableGet_mem t _ m hget)
          refine ⟨le_refl _, le_refl _, le_refl _, le_refl _, ?_⟩
          simp [Nat.mod_eq_of_lt hrt]
        · rw [tableGet_update_ne t _ k _ hkk, hget] at hgetNew
          obtain rfl := Option.some.inj hgetNew
          exact counterLE_refl m

theorem metrics_invariants_witness :
    (TimeInv (step none [(keyA, freshMetrics 0)] (.send 1 keyA 10 5))
    ∧ ∀ k m mNew, (∀ pid n, (Event.send 1 keyA 10 5) ≠ .connect pid k n) →
        tableGet [(keyA, freshMetrics 0)] k = some m →
        tableGet (step none [(keyA, freshMetrics 0)] (.send 1 keyA 10 5)) k = some mNew →
        counterLE m mNew) :=
  metrics_invariants none [(keyA, freshMetrics 0)] (.send 1 keyA 10 5)
    (by decide)
    (by
      intro n hn p hp
      simp only [eventTime, Option.some.injEq] at hn
      subst hn
      revert p hp
      decide)
    (by decide)

/-! ### Claim C9: no probe ever touches bytes_recv -/

/-- Every entry of the table has bytes_recv = 0. -/
abbrev allRecvZero (t : ConnTable) : Prop := ∀ p ∈ t, p.2.bytes_recv = 0

theorem allRecvZero_step (cfg : Option SidecarConfig) (e : Event)
    (t : ConnTable) (h : allRecvZero t) : allRecvZero (step cfg t e) := by
  cases e with
  | connect pid k0 now =>
    cases hT : should_trace cfg pid with
    | false =>
      rw [(step_filtered cfg pid k0 0 now t hT).1]
      exact h
    | true =>
      cases hp : tableGet t k0 with
      | some m0 =>
        rw [step_connect_present cfg pid k0 now t hT (by simp [hp])]
        intro p hpmem
        rcases mem_tableUpdate t k0 _ p hpmem with h2 | ⟨q, hq, hq1, rfl⟩
        · exact h p h2
        · simp [freshMetrics]
      | none =>
        by_cases hr : t.length < CONNECTIONS_MAX_ENTRIES
        · rw [step_connect_absent_room cfg pid k0 now t hT hp hr]
          intro p hpmem
          rcases List.mem_cons.mp hpmem with h2 | h2
          · subst h2
            simp [freshMetrics]
          · exact h p h2
        · rw [step_connect_absent_full cfg pid k0 now t hp hr]
          exact h
  | send pid k0 s now =>
    cases hT : should_trace cfg pid with
    | false =>
      rw [(step_filtered cfg pid k0 s now t hT).2.1]
      exact h
    | true =>
      cases hp : tableGet t k0 with
      | none =>
        rw [step_send_none cfg pid k0 s now t hp]
        exact h
      | some m0 =>
        rw [step_send_some cfg pid k0 s now t hT (by simp [hp])]
        intro p hpmem
        rcases mem_tableUpdate t k0 _ p hpmem with h2 | ⟨q, hq, hq1, rfl⟩
        · exact h p h2
        · simpa using h q hq
  | recv pid k0 now =>
    cases hT : should_trace cfg pid with
    | false =>
      rw [(step_filtered cfg pid k0 0 now t hT).2.2]
      exact h
    | true =>
      cases hp : tableGet t k0 with
      | none =>
        rw [step_recv_none cfg pid k0 now t hp]
        exact h
      | some m0 =>
        rw [step_recv_some cfg pid k0 now t hT (by simp [hp])]
        intro p hpmem
        rcases mem_tableUpdate t k0 _ p hpmem with h2 | ⟨q, hq, hq1, rfl⟩
        · exact h p h2
        · simpa using h q hq
  | recvRet ret =>
    rw [step_recvRet_eq]
    exact h
  | close k0 =>
    rw [step_close_eq]
    intro p hp
    exact h p (mem_tableRemove t k0 p hp)
  | retransmit saddr daddr sport dport =>
    cases hp : tableGet t
        { src_ip := saddr, dst_ip := daddr, src_port := sport, dst_port := dport } with
    | none =>
      rw [step_retransmit_none cfg saddr daddr sport dport t hp]
      exact h
    | some m0 =>
      rw [step_retransmit_some cfg saddr daddr sport dport t (by simp [hp])]
      intro p hpmem
      rcases mem_tableUpdate t _ _ p hpmem with h2 | ⟨q, hq, hq1, rfl⟩
      · exact h p h2
      · simpa using h q hq

theorem allRecvZero_runEvents (cfg : Option SidecarConfig) (es : List Event) :
    ∀ t, allRecvZero t → allRecvZero (runEvents cfg es t) := by
  induction es with
  | nil =>
    intro t h
    exact h
  | cons e rest ih =>
    intro t h
    rw [runEvents_cons]
    exact ih _ (allRecvZero_step cfg e t h)

/-- Claim C9: starting from an empty table, no sequence of probe events
ever produces an entry with nonzero bytes_recv; the receive-return probe
leaves the table untouched for any return value; and the receive-entry
probe changes only packets_recv and last_seen_ns of the entry it hits. -/
theorem bytes_recv_always_zero (cfg : Option SidecarConfig) :
    (∀ es : List Event, allRecvZero (runEvents cfg es []))
    ∧ (∀ (t : ConnTable) (ret : Int), step cfg t (.recvRet ret) = t)
    ∧ (∀ (t : ConnTable) (pid : Nat) (k : ConnKey) (now : Nat) (m : ConnMetrics),
        should_trace cfg pid = true → tableGet t k = some m →
        tableGet (step cfg t (.recv pid k now)) k
          = some { m with
              packets_recv := (m.packets_recv + 1) % U64
              last_seen_ns := now }) := by
  refine ⟨fun es => allRecvZero_runEvents cfg es []
      (fun p hp => absurd hp (List.not_mem_nil p)),
    fun t ret => step_recvRet_eq cfg t ret, ?_⟩
  intro t pid k now m hT hget
  rw [step_recv_some cfg pid k now t hT (by simp [hget])]
  rw [tableGet_update_self, hget]
  rfl

theorem bytes_recv_always_zero_witness :
    allRecvZero (runEvents none [Event.connect 1 keyA 0, Event.recv 1 keyA 5] [])
    ∧ step none [(keyA, freshMetrics 0)] (.recvRet 42) = [(keyA, freshMetrics 0)]
    ∧ tableGet (step none [(keyA, freshMetrics 0)] (.recv 1 keyA 5)) keyA
        = some { freshMetrics 0 with
            packets_recv := ((freshMetrics 0).packets_recv + 1) % U64
            last_seen_ns := 5 } :=
  ⟨(bytes_recv_always_zero none).1 [Event.connect 1 keyA 0, Event.recv 1 keyA 5],
   (bytes_recv_always_zero none).2.1 [(keyA, freshMetrics 0)] 42,
   (bytes_recv_always_zero none).2.2 [(keyA, freshMetrics 0)] 1 keyA 5
     (freshMetrics 0) rfl (by decide)⟩

/-! ### Claim C7: aggregation by destination -/

/-- EndpointMetrics from sidecar/src/metrics.rs. Totals are u64 (wrapping
adds); the f64 running average is modelled by exact rational arithmetic. -/
structure EndpointMetrics where
  total_bytes_sent : Nat
  total_bytes_recv : Nat
  total_packets_sent : Nat
  total_packets_recv : Nat
  total_retransmits : Nat
  connection_count : Nat
  avg_duration_ms : ℚ
deriving DecidableEq, Repr

/-- EndpointMetrics::default(): all zero. -/
def emptyEndpoint : EndpointMetrics :=
  { total_bytes_sent := 0, total_bytes_recv := 0, total_packets_sent := 0
    total_packets_recv := 0, total_retransmits := 0, connection_count := 0
    avg_duration_ms := 0 }

/-- (metrics.last_seen_ns - metrics.start_ns) as f64 / 1_000_000.0, with
the u64 subtraction truncating at zero like Nat subtraction. -/
def durationMs (m : ConnMetrics) : ℚ :=
  ((m.last_seen_ns - m.start_ns : Nat) : ℚ) / 1000000

/-- The loop body of aggregate_by_destination for one record hitting one
group entry: add the counters, bump the connection count, and fold the
duration into the running average avgNew = avg * ((n - 1) / n) + dur / n
where n is the count after the bump. -/
def aggStep (e : EndpointMetrics) (km : ConnKey × ConnMetrics) :
    EndpointMetrics :=
  let m := km.2
  let count := (e.connection_count + 1) % U64
  let n : ℚ := (count : ℚ)
  { total_bytes_sent := (e.total_bytes_sent + m.bytes_sent) % U64
    total_bytes_recv := (e.total_bytes_recv + m.bytes_recv) % U64
    total_packets_sent := (e.total_packets_sent + m.packets_sent) % U64
    total_packets_recv := (e.total_packets_recv + m.packets_recv) % U64
    total_retransmits := (e.total_retransmits + m.retransmits) % U64
    connection_count := count
    avg_duration_ms := e.avg_duration_ms * ((n - 1) / n) + durationMs m / n }

/-- u32::to_be as used in Ipv4Addr::from(key.dst_ip.to_be()): byte swap of
a 32-bit value. -/
def to_be32 (x : Nat) : Nat :=
  (x % 256) * 16777216 + (x / 256 % 256) * 65536
    + (x / 65536 % 256) * 256 + x / 16777216 % 256

/-- The (dst address, dst port) group key of a record. -/
def destOf (k : ConnKey) : Nat × Nat := (to_be32 k.dst_ip, k.dst_port)

/-- aggregate_by_destination, observed at one destination d: the HashMap
entry for d accumulates aggStep over exactly the records with destination
d, in iteration order, starting from the all-zero default. -/
def aggregate_by_destination (l : List (ConnKey × ConnMetrics))
    (d : Nat × Nat) : EndpointMetrics :=
  (l.filter (fun km => decide (destOf km.1 = d))).foldl aggStep emptyEndpoint

/-- Order-independent closed form of the group fold: totals are the sums
mod 2^64, the count is the length, and the running average equals the
plain mean of the durations. -/
def aggSpec (l : List (ConnKey × ConnMetrics)) : EndpointMetrics :=
  { total_bytes_sent := (l.map (fun km => km.2.bytes_sent)).sum % U64
    total_bytes_recv := (l.map (fun km => km.2.bytes_recv)).sum % U64
    total_packets_sent := (l.map (fun km => km.2.packets_sent)).sum % U64
    total_packets_recv := (l.map (fun km => km.2.packets_recv)).sum % U64
    total_retransmits := (l.map (fun km => km.2.retransmits)).sum % U64
    connection_count := l.length
    avg_duration_ms := if l.length = 0 then 0 else
      (l.map (fun km => durationMs km.2)).sum / (l.length : ℚ) }

theorem agg_foldl_closed (l : List (ConnKey × ConnMetrics))
    (hlen : l.length < U64) :
    l.foldl aggStep emptyEndpoint = aggSpec l := by
  induction l using List.reverseRecOn with
  | nil => simp [aggSpec, emptyEndpoint]
  | append_singleton l x ih =>
    rw [List.length_append, List.length_singleton] at hlen
    have hl : l.length < U64 := by omega
    have hcount : (l.length + 1) % U64 = l.length + 1 := Nat.mod_eq_of_lt hlen
    rw [List.foldl_append, ih hl]
    simp only [aggStep, aggSpec, List.map_append, List.sum_append,
      List.length_append, List.map_cons, List.map_nil, List.sum_cons,
      List.sum_nil, List.length_singleton, Nat.add_zero, hcount,
      List.foldl_cons, List.foldl_nil]
    simp only [EndpointMetrics.mk.injEq]
    refine ⟨by rw [Nat.mod_add_mod], by rw [Nat.mod_add_mod],
      by rw [Nat.mod_add_mod], by rw [Nat.mod_add_mod],
      by rw [Nat.mod_add_mod], trivial, ?_⟩
    rcases Nat.eq_zero_or_pos l.length with h0 | hpos
    · obtain rfl := List.length_eq_zero.mp h0
      simp
    · have hne : (l.length : ℚ) ≠ 0 := Nat.cast_ne_zero.mpr (by omega)
      have hne1 : ((l.length : ℚ) + 1) ≠ 0 := by positivity
      simp only [if_neg (by omega : ¬ l.length = 0),
        if_neg (by omega : ¬ l.length + 1 = 0)]
      push_cast
      field_simp

/-- Claim C7: for records sharing one destination, aggregation is
order-independent: any permutation of the record list yields identical
summed totals and connection count, and exactly the same running-average
duration (exact rational arithmetic standing in for f64 tolerance). -/
theorem aggregate_order_independent (l1 l2 : List (ConnKey × ConnMetrics))
    (d : Nat × Nat) (hperm : l1.Perm l2) (hlen : l1.length < U64)
    (hdest : ∀ km ∈ l1, destOf km.1 = d) :
    aggregate_by_destination l1 d = aggregate_by_destination l2 d := by
  have hpf : (l1.filter (fun km => decide (destOf km.1 = d))).Perm
      (l2.filter (fun km => decide (destOf km.1 = d))) := hperm.filter _
  have h1 : (l1.filter (fun km => decide (destOf km.1 = d))).length < U64 :=
    lt_of_le_of_lt (List.length_filter_le _ _) hlen
  have h2 : (l2.filter (fun km => decide (destOf km.1 = d))).length < U64 := by
    rw [← hpf.length_eq]
    exact h1
  rw [aggregate_by_destination, aggregate_by_destination,
    agg_foldl_closed _ h1, agg_foldl_closed _ h2]
  have hL := hpf.length_eq
  unfold aggSpec
  simp only [EndpointMetrics.mk.injEq]
  refine ⟨?_, ?_, ?_, ?_, ?_, hL, ?_⟩
  · rw [List.Perm.sum_eq (hpf.map _)]
  · rw [List.Perm.sum_eq (hpf.map _)]
  · rw [List.Perm.sum_eq (hpf.map _)]
  · rw [List.Perm.sum_eq (hpf.map _)]
  · rw [List.Perm.sum_eq (hpf.map _)]
  · rw [hL, List.Perm.sum_eq (hpf.map _)]

/-- Two records for destination (0, 443) used by the C7 witness. -/
def recA : ConnKey × ConnMetrics :=
  ({ src_ip := 1, dst_ip := 0, src_port := 10, dst_port := 443 },
   { bytes_sent := 100, bytes_recv := 0, packets_sent := 2, packets_recv := 0
     start_ns := 0, last_seen_ns := 2000000, retransmits := 1, _padding := 0 })

def recB : ConnKey × ConnMetrics :=
  ({ src_ip := 2, dst_ip := 0, src_port := 11, dst_port := 443 },
   { bytes_sent := 50, bytes_recv := 0, packets_sent := 1, packets_recv := 0
     start_ns := 0, last_seen_ns := 1000000, retransmits := 0, _padding := 0 })

theorem aggregate_order_independent_witness :
    aggregate_by_destination [recA, recB] (0, 443)
      = aggregate_by_destination [recB, recA] (0, 443) :=
  aggregate_order_independent [recA, recB] [recB, recA] (0, 443)
    (by decide) (by norm_num [U64]) (by decide)

/-! ### Claim C8: the export endpoint -/

/-- An HTTP response: status code and body. -/
structure HttpResponse where
  status : Nat
  body : String
deriving DecidableEq, Repr

/-- The request handler inside run_metrics_server: dispatch on the request
path. The encoded registry snapshot (TextEncoder over prometheus::gather())
is abstracted as the string it encodes to; the handler returns the response
together with the registry state it leaves behind, which lets the theorem
state that handling mutates nothing. Response::new carries status 200. -/
def handle_request (registry : String) (path : String) :
    HttpResponse × String :=
  if path = "/metrics" then ({ status := 200, body := registry }, registry)
  else if path = "/health" then ({ status := 200, body := "OK" }, registry)
  else ({ status := 404, body := "Not Found" }, registry)

/-- Claim C8: the response depends only on the path: /metrics returns the
current encoded snapshot, /health the fixed body OK, anything else a 404;
and handling a request leaves the registry state unchanged. -/
theorem export_endpoint_dispatch (registry path : String) :
    (handle_request registry path).2 = registry
    ∧ (path = "/metrics" →
        (handle_request registry path).1 = { status := 200, body := registry })
    ∧ (path = "/health" →
        (handle_request registry path).1 = { status := 200, body := "OK" })
    ∧ (path ≠ "/metrics" → path ≠ "/health" →
        (handle_request registry path).1 = { status := 404, body := "Not Found" }) := by
  by_cases h1 : path = "/metrics"
  · simp [handle_request, h1]
  · by_cases h2 : path = "/health"
    · simp [handle_request, h1, h2]
    · simp [handle_request, h1, h2]

theorem export_endpoint_dispatch_witness :
    (handle_request "snapshot" "/metrics").1
        = { status := 200, body := "snapshot" }
    ∧ (handle_request "snapshot" "/health").1 = { status := 200, body := "OK" }
    ∧ (handle_request "snapshot" "/other").1
        = { status := 404, body := "Not Found" }
    ∧ (handle_request "snapshot" "/other").2 = "snapshot" :=
  ⟨(export_endpoint_dispatch "snapshot" "/metrics").2.1 rfl,
   (export_endpoint_dispatch "snapshot" "/health").2.2.1 rfl,
   (export_endpoint_dispatch "snapshot" "/other").2.2.2
     (by decide) (by decide),
   (export_endpoint_dispatch "snapshot" "/other").1⟩
